import Mathlib

/-!
Verification of the modulation-progression combination engine
(`generate_combined_progressions.py`).

The data model and operations below are a shallow embedding of the Python
source.  Python integers are modelled by `Int` (Python's `%` with positive
modulus agrees with `Int.emod`); Python lists by `List`; the JSON records by
structures carrying the fields the engine reads, plus an `others` field for
the fields it only copies; code that can raise returns `Except`.

Python's `list(set(...))` enumerates a hash set in an order that is not
specified across process runs, so the style merge is modelled by an explicit
enumeration parameter `setList : List String → List String`; a faithful
instantiation is any function producing a duplicate-free list with the same
members as its input (`IsSetList` below).
-/

/-- One chord record: the `key_root` pitch class read and rewritten by the
engine, an optional `comment`, and all remaining JSON fields, opaque to the
engine and carried along verbatim. -/
structure Chord where
  key_root : Int
  comment : Option String
  others : List (String × String)
deriving DecidableEq

/-- One progression record of the catalog. -/
structure Progression where
  id : Int
  modulation_technique : String
  style : List String
  from_mode : String
  to_mode : String
  to_root : Int
  chords : List Chord
deriving DecidableEq

/-- `are_compatible` (source lines 24-26): two progressions chain when the
first ends in the mode the second starts from. -/
def are_compatible (prog1 prog2 : Progression) : Bool :=
  prog1.to_mode == prog2.from_mode

/-- The per-chord rewrite the source applies to each chord copied from
`prog2` (source lines 58-64): shift `key_root` by the offset modulo 12 and
tag the comment, when present, with the provenance marker. -/
def rebaseChord (offset : Int) (c : Chord) : Chord :=
  { c with
    key_root := (c.key_root + offset) % 12
    comment := c.comment.map (fun s => "[from prog2] " ++ s) }

/-- `combine_progressions` (source lines 29-68).  Deep copies are identity on
immutable Lean values, so only the field rewrites remain. -/
def combine_progressions (setList : List String → List String)
    (prog1 prog2 : Progression) (new_id : Int) : Progression :=
  { id := new_id
    modulation_technique :=
      "combo " ++ prog1.modulation_technique ++ " " ++ prog2.modulation_technique
    style := setList (prog1.style ++ prog2.style)
    from_mode := prog1.from_mode
    to_root := (prog1.to_root + prog2.to_root) % 12
    to_mode := prog2.to_mode
    chords := prog1.chords.dropLast ++ prog2.chords.map (rebaseChord prog1.to_root) }

/-- The inner loop of `generate_combined_progressions` (source lines 86-91)
for a fixed `prog1`: walk the catalog, combining each compatible `prog2` and
threading the `next_id` counter; returns the produced row together with the
counter value after the row. -/
def generateRow (setList : List String → List String) (prog1 : Progression) :
    List Progression → Int → List Progression × Int
  | [], next_id => ([], next_id)
  | prog2 :: rest, next_id =>
    if are_compatible prog1 prog2 then
      let tail := generateRow setList prog1 rest (next_id + 1)
      (combine_progressions setList prog1 prog2 next_id :: tail.1, tail.2)
    else
      generateRow setList prog1 rest next_id

/-- The outer loop of `generate_combined_progressions` (source lines 85-91):
rows for each `prog1` in catalog order, the id counter threaded through. -/
def generateAux (setList : List String → List String) :
    List Progression → List Progression → Int → List Progression
  | [], _, _ => []
  | prog1 :: rest, catalog, next_id =>
    let row := generateRow setList prog1 catalog next_id
    row.1 ++ generateAux setList rest catalog row.2

/-- Python's `max(mod['id'] for mod in modulations)` (source line 82): `none`
models the `ValueError` raised on an empty sequence. -/
def maxIdOpt : List Progression → Option Int
  | [] => none
  | m :: rest => some (rest.foldl (fun acc q => max acc q.id) m.id)

/-- `generate_combined_progressions` (source lines 71-100).  The `max` call
on line 82 raises on an empty catalog, before any pair is examined. -/
def generate_combined_progressions (setList : List String → List String)
    (modulations : List Progression) : Except String (List Progression) :=
  match maxIdOpt modulations with
  | none => Except.error "ValueError: max() arg is an empty sequence"
  | some m => Except.ok (generateAux setList modulations modulations (m + 1))

/-- The data path of `main` (source lines 103-127) after loading: no
validation step, straight to generation, then `modulations + combined`. -/
def run_main (setList : List String → List String)
    (modulations : List Progression) : Except String (List Progression) :=
  (generate_combined_progressions setList modulations).map
    (fun combined => modulations ++ combined)

/-- What Python guarantees about `list(set(inp))`: a duplicate-free list with
exactly the members of `inp`, in an unspecified order. -/
def IsSetList (inp out : List String) : Prop :=
  out.Nodup ∧ (∀ s ∈ out, s ∈ inp) ∧ (∀ s ∈ inp, s ∈ out)

instance (inp out : List String) : Decidable (IsSetList inp out) := by
  unfold IsSetList
  exact inferInstance

/-- Two progressions that agree on every field except that their `style`
lists may list the same tag set in different orders. -/
def EqUpToStyle (p q : Progression) : Prop :=
  p.id = q.id ∧ p.modulation_technique = q.modulation_technique ∧
  p.from_mode = q.from_mode ∧ p.to_mode = q.to_mode ∧
  p.to_root = q.to_root ∧ p.chords = q.chords ∧
  p.style.Nodup ∧ q.style.Nodup ∧
  (∀ s ∈ p.style, s ∈ q.style) ∧ (∀ s ∈ q.style, s ∈ p.style)

instance (p q : Progression) : Decidable (EqUpToStyle p q) := by
  unfold EqUpToStyle
  exact inferInstance

/-- The compatible `(prog1, prog2)` pairs contributed by a fixed `prog1`, in
catalog order. -/
def rowPairs (prog1 : Progression) (catalog : List Progression) :
    List (Progression × Progression) :=
  (catalog.filter (fun prog2 => are_compatible prog1 prog2)).map
    (fun prog2 => (prog1, prog2))

/-- All compatible pairs discovered by the nested loops, in discovery order:
outer operand from the first list, inner operand from `catalog`. -/
def pairsOf : List Progression → List Progression → List (Progression × Progression)
  | [], _ => []
  | prog1 :: rest, catalog => rowPairs prog1 catalog ++ pairsOf rest catalog

/-- The compatible ordered pairs of the full cross product `catalog × catalog`
(self-pairs included), in discovery order. -/
def compatiblePairs (catalog : List Progression) :
    List (Progression × Progression) :=
  pairsOf catalog catalog

/-- Combine each pair of the list, assigning consecutive ids from `base`. -/
def assignIds (setList : List String → List String) (base : Int) :
    List (Progression × Progression) → List Progression
  | [] => []
  | pq :: rest =>
    combine_progressions setList pq.1 pq.2 base :: assignIds setList (base + 1) rest

/-- One faithful instantiation of the set-enumeration parameter. -/
def dedupSet (l : List String) : List String := l.dedup

/-- Another faithful instantiation, enumerating the same sets backwards. -/
def dedupSetRev (l : List String) : List String := l.dedup.reverse

/- Concrete records, taken from the spec's worked example scenario. -/

/-- Example progression A of the spec: ionian to dorian, offset 2. -/
def progA : Progression :=
  { id := 1, modulation_technique := "tA", style := ["classical"]
    from_mode := "ionian", to_mode := "dorian", to_root := 2
    chords := [⟨0, none, []⟩, ⟨2, some "arrive", []⟩] }

/-- Example progression B of the spec: dorian to mixolydian, offset 5. -/
def progB : Progression :=
  { id := 2, modulation_technique := "tB", style := ["jazz"]
    from_mode := "dorian", to_mode := "mixolydian", to_root := 5
    chords := [⟨0, none, []⟩, ⟨3, none, []⟩, ⟨5, none, []⟩] }

/-- A self-compatible progression (`from_mode == to_mode`). -/
def progLoop : Progression :=
  { id := 7, modulation_technique := "loop", style := ["x"]
    from_mode := "dorian", to_mode := "dorian", to_root := 0
    chords := [⟨0, none, []⟩] }

/-- A second self-compatible progression on the same mode. -/
def progLoop2 : Progression :=
  { id := 8, modulation_technique := "loop2", style := ["y"]
    from_mode := "dorian", to_mode := "dorian", to_root := 3
    chords := [⟨0, none, []⟩, ⟨3, none, []⟩] }

/-- A progression with no required field missing but an empty chords list. -/
def progBadChords : Progression :=
  { id := 1, modulation_technique := "bad", style := ["s"]
    from_mode := "dorian", to_mode := "dorian", to_root := 0
    chords := [] }

/-- A progression with an empty chords list, used as left operand. -/
def progEmptyLeft : Progression :=
  { id := 3, modulation_technique := "tE", style := []
    from_mode := "ionian", to_mode := "dorian", to_root := 4
    chords := [] }

/-- Claim C1: for compatible progressions with non-empty chord lists, the
combined progression's `to_root` is the mod-12 sum of the operands'
`to_root` values (source line 47). -/
theorem C1_to_root_additive (setList : List String → List String)
    (a b : Progression) (n : Int)
    (hc : are_compatible a b = true)
    (ha : a.chords ≠ []) (hb : b.chords ≠ []) :
    (combine_progressions setList a b n).to_root = (a.to_root + b.to_root) % 12 :=
  rfl

/-- Witness for C1 at the spec's example pair. -/
theorem C1_to_root_additive_witness :
    are_compatible progA progB = true ∧ progA.chords ≠ [] ∧ progB.chords ≠ [] ∧
      (combine_progressions dedupSet progA progB 3).to_root =
        (progA.to_root + progB.to_root) % 12 :=
  ⟨by decide, by decide, by decide,
    C1_to_root_additive dedupSet progA progB 3 (by decide) (by decide) (by decide)⟩

/-- Claim C2: for non-empty chord lists, the combined chord list has length
`len(a.chords) + len(b.chords) - 1` (source lines 52-66). -/
theorem C2_chord_count (setList : List String → List String)
    (a b : Progression) (n : Int)
    (ha : a.chords ≠ []) (hb : b.chords ≠ []) :
    (combine_progressions setList a b n).chords.length =
      a.chords.length + b.chords.length - 1 := by
  have hpos : 0 < a.chords.length := List.length_pos.mpr ha
  simp only [combine_progressions, List.length_append, List.length_dropLast,
    List.length_map]
  omega

/-- Witness for C2 at the spec's example pair: 2 + 3 - 1 = 4 chords. -/
theorem C2_chord_count_witness :
    progA.chords ≠ [] ∧ progB.chords ≠ [] ∧
      (combine_progressions dedupSet progA progB 3).chords.length =
        progA.chords.length + progB.chords.length - 1 :=
  ⟨by decide, by decide,
    C2_chord_count dedupSet progA progB 3 (by decide) (by decide)⟩

/-- Claim C8: the combined progression always starts in `a.from_mode` and
ends in `b.to_mode` (source lines 46 and 48). -/
theorem C8_endpoint_chaining (setList : List String → List String)
    (a b : Progression) (n : Int) :
    (combine_progressions setList a b n).from_mode = a.from_mode ∧
      (combine_progressions setList a b n).to_mode = b.to_mode :=
  ⟨rfl, rfl⟩

/-- Claim C10: with an empty left chord list the slice `prog1.chords[:-1]`
is empty, so `combine_progressions` neither faults nor drops anything: the
result's chords are exactly the re-based copies of `b.chords`. -/
theorem C10_empty_left_chords (setList : List String → List String)
    (a b : Progression) (n : Int) (ha : a.chords = []) :
    (combine_progressions setList a b n).chords =
        b.chords.map (rebaseChord a.to_root) ∧
      (combine_progressions setList a b n).chords.length = b.chords.length := by
  simp [combine_progressions, ha]

/-- Witness for C10: an empty-chords left operand against the example B. -/
theorem C10_empty_left_chords_witness :
    progEmptyLeft.chords = [] ∧
      (combine_progressions dedupSet progEmptyLeft progB 9).chords =
          progB.chords.map (rebaseChord progEmptyLeft.to_root) ∧
        (combine_progressions dedupSet progEmptyLeft progB 9).chords.length =
          progB.chords.length :=
  ⟨by decide, C10_empty_left_chords dedupSet progEmptyLeft progB 9 (by decide)⟩

/-- Counterexample to claim C4 as stated: for the self-compatible pair
`(progLoop, progLoop2)` the function returns `true`, yet the claimed
equivalence with "`a.to_mode == b.to_mode` is false" fails, because here
`a.to_mode` equals `b.to_mode`. -/
theorem C4_counterexample :
    ¬(((are_compatible progLoop progLoop2 = true) ↔
          ¬(progLoop.to_mode = progLoop2.to_mode)) ∧
      ((are_compatible progLoop progLoop2 = true) ↔
          progLoop.to_mode = progLoop2.from_mode)) := by
  decide

/-- Claim C4 (amended): `are_compatible` is a total function of its two
records (it is a Lean function, hence total and side-effect free) and
returns `true` exactly when `a.to_mode` equals `b.from_mode`
(source lines 24-26). -/
theorem C4_compatibility (a b : Progression) :
    are_compatible a b = true ↔ a.to_mode = b.from_mode := by
  simp [are_compatible]

/-- Claim C3: the combined chord list starts with `a`'s chords minus the
last, unchanged, and its last `len(b.chords)` entries carry `b`'s original
`key_root` values shifted by `a.to_root` modulo 12 (source lines 53-66). -/
theorem C3_join_point_rebasing (setList : List String → List String)
    (a b : Progression) (n : Int) (hc : are_compatible a b = true) :
    (combine_progressions setList a b n).chords.take (a.chords.length - 1) =
        a.chords.dropLast ∧
      ((combine_progressions setList a b n).chords.drop
            (a.chords.length - 1)).map Chord.key_root =
        b.chords.map (fun c => (c.key_root + a.to_root) % 12) := by
  have h1 : a.chords.length - 1 = a.chords.dropLast.length :=
    (List.length_dropLast _).symm
  constructor
  · rw [h1]
    exact List.take_left _ _
  · rw [h1]
    show ((a.chords.dropLast ++ b.chords.map (rebaseChord a.to_root)).drop
        a.chords.dropLast.length).map Chord.key_root = _
    rw [List.drop_left, List.map_map]
    rfl

/-- Witness for C3 at the spec's example pair. -/
theorem C3_join_point_rebasing_witness :
    are_compatible progA progB = true ∧
      ((combine_progressions dedupSet progA progB 3).chords.take
            (progA.chords.length - 1) =
          progA.chords.dropLast ∧
        ((combine_progressions dedupSet progA progB 3).chords.drop
              (progA.chords.length - 1)).map Chord.key_root =
          progB.chords.map (fun c => (c.key_root + progA.to_root) % 12)) :=
  ⟨by decide, C3_join_point_rebasing dedupSet progA progB 3 (by decide)⟩

/-- Claim C5 evaluated on the failing input: on the empty catalog the code
raises `ValueError` at `max(mod['id'] for mod in modulations)` (source line
82) before anything else happens; no guard for `original_count == 0` exists
and line 136 would divide by zero if reached. -/
theorem C5_empty_catalog_raises (setList : List String → List String) :
    generate_combined_progressions setList [] =
      Except.error "ValueError: max() arg is an empty sequence" :=
  rfl

/-- Claim C6 evaluated on the failing input: `main` performs no validation
between loading and combining.  A catalog whose only record has an empty
chords list is processed without any rejection: the record is
self-compatible, `prog1['chords'][:-1]` silently slices the empty list, and
the run succeeds, emitting a combined progression with zero chords. -/
theorem C6_no_validation :
    run_main dedupSet [progBadChords] =
      Except.ok [progBadChords,
        { id := 2, modulation_technique := "combo bad bad", style := ["s"]
          from_mode := "dorian", to_mode := "dorian", to_root := 0
          chords := [] }] :=
  rfl

/-- The inner loop equals consecutive-id assignment over the compatible
pairs contributed by `prog1`, and advances the counter by their number. -/
theorem generateRow_eq (setList : List String → List String) (prog1 : Progression)
    (catalog : List Progression) (nid : Int) :
    generateRow setList prog1 catalog nid =
      (assignIds setList nid (rowPairs prog1 catalog),
        nid + ((rowPairs prog1 catalog).length : Int)) := by
  induction catalog generalizing nid with
  | nil => simp [generateRow, rowPairs, assignIds]
  | cons prog2 rest ih =>
    by_cases h : are_compatible prog1 prog2 = true
    · simp only [generateRow, h, if_true, ih, rowPairs, List.filter_cons_of_pos h,
        List.map_cons, assignIds, List.length_cons, List.length_map]
      refine Prod.ext rfl ?_
      push_cast
      ring
    · have hfilter :
          List.filter (fun prog2 => are_compatible prog1 prog2) (prog2 :: rest) =
            List.filter (fun prog2 => are_compatible prog1 prog2) rest := by
        simp [List.filter_cons, h]
      simp only [generateRow]
      rw [if_neg h, ih]
      simp only [rowPairs, hfilter]

/-- `assignIds` distributes over append, advancing the base by the length
of the first block. -/
theorem assignIds_append (setList : List String → List String) (base : Int)
    (l1 l2 : List (Progression × Progression)) :
    assignIds setList base (l1 ++ l2) =
      assignIds setList base l1 ++
        assignIds setList (base + (l1.length : Int)) l2 := by
  induction l1 generalizing base with
  | nil => simp [assignIds]
  | cons pq rest ih =>
    have h1 : base + (((pq :: rest).length : Nat) : Int) =
        base + 1 + (rest.length : Int) := by
      rw [List.length_cons]
      push_cast
      ring
    calc assignIds setList base ((pq :: rest) ++ l2)
        = combine_progressions setList pq.1 pq.2 base ::
            assignIds setList (base + 1) (rest ++ l2) := rfl
      _ = combine_progressions setList pq.1 pq.2 base ::
            (assignIds setList (base + 1) rest ++
              assignIds setList (base + 1 + (rest.length : Int)) l2) := by
          rw [ih]
      _ = assignIds setList base (pq :: rest) ++
            assignIds setList (base + (((pq :: rest).length : Nat) : Int)) l2 := by
          rw [h1]
          rfl

/-- The nested loops equal consecutive-id assignment over the discovery-order
pair list. -/
theorem generateAux_eq (setList : List String → List String)
    (ps catalog : List Progression) (nid : Int) :
    generateAux setList ps catalog nid =
      assignIds setList nid (pairsOf ps catalog) := by
  induction ps generalizing nid with
  | nil => simp [generateAux, pairsOf, assignIds]
  | cons prog1 rest ih =>
    simp only [generateAux, generateRow_eq, pairsOf, assignIds_append, ih]

/-- The ids handed out by `assignIds` are `base, base+1, ...` in order. -/
theorem assignIds_map_id (setList : List String → List String) (base : Int)
    (pairs : List (Progression × Progression)) :
    (assignIds setList base pairs).map Progression.id =
      (List.range pairs.length).map (fun k : Nat => base + (k : Int)) := by
  induction pairs generalizing base with
  | nil => simp [assignIds]
  | cons pq rest ih =>
    simp only [assignIds, List.map_cons, ih, List.length_cons,
      List.range_succ_eq_map, List.map_map]
    refine List.cons_eq_cons.mpr ⟨by simp [combine_progressions], ?_⟩
    refine List.map_congr_left ?_
    intro k _
    simp only [Function.comp_apply]
    push_cast
    ring

/-- `assignIds` produces one progression per pair. -/
theorem assignIds_length (setList : List String → List String) (base : Int)
    (pairs : List (Progression × Progression)) :
    (assignIds setList base pairs).length = pairs.length := by
  induction pairs generalizing base with
  | nil => rfl
  | cons pq rest ih => simp [assignIds, ih]

/-- Every id of the catalog is bounded by the running `foldl max`. -/
theorem foldl_max_bound (l : List Progression) (acc : Int) :
    acc ≤ l.foldl (fun a q => max a q.id) acc ∧
      ∀ p ∈ l, p.id ≤ l.foldl (fun a q => max a q.id) acc := by
  induction l generalizing acc with
  | nil => simp
  | cons q rest ih =>
    simp only [List.foldl_cons]
    refine ⟨le_trans (le_max_left acc q.id) (ih (max acc q.id)).1, ?_⟩
    intro p hp
    rcases List.mem_cons.mp hp with h | h
    · rw [h]
      exact le_trans (le_max_right acc q.id) (ih (max acc q.id)).1
    · exact (ih (max acc q.id)).2 p h

/-- `maxIdOpt` bounds every id in the catalog. -/
theorem maxIdOpt_le (ms : List Progression) (m : Int)
    (h : maxIdOpt ms = some m) : ∀ p ∈ ms, p.id ≤ m := by
  match ms, h with
  | m0 :: rest, h =>
    have hm : rest.foldl (fun a q => max a q.id) m0.id = m := by
      simpa [maxIdOpt] using h
    intro p hp
    rcases List.mem_cons.mp hp with h1 | h1
    · exact hm ▸ h1 ▸ (foldl_max_bound rest m0.id).1
    · exact hm ▸ (foldl_max_bound rest m0.id).2 p h1

/-- Claim C7: for a non-empty catalog (one whose `max` id exists and is `m`),
the run succeeds and its result is exactly the consecutive-id combination of
the discovery-order cross-product pair list (outer then inner catalog order,
self-pairs included), with ids `m+1, m+2, ...`; hence the new ids are
distinct and each strictly exceeds every id of the input catalog
(source lines 81-100). -/
theorem C7_cross_product_and_ids (setList : List String → List String)
    (ms : List Progression) (m : Int) (hm : maxIdOpt ms = some m) :
    ∃ res, generate_combined_progressions setList ms = Except.ok res ∧
      res = assignIds setList (m + 1) (compatiblePairs ms) ∧
      res.map Progression.id =
        (List.range (compatiblePairs ms).length).map
          (fun k : Nat => m + 1 + (k : Int)) ∧
      (res.map Progression.id).Nodup ∧
      ∀ p ∈ ms, ∀ q ∈ res, p.id < q.id := by
  have hres : generateAux setList ms ms (m + 1) =
      assignIds setList (m + 1) (compatiblePairs ms) :=
    generateAux_eq setList ms ms (m + 1)
  have hmap : (generateAux setList ms ms (m + 1)).map Progression.id =
      (List.range (compatiblePairs ms).length).map
        (fun k : Nat => m + 1 + (k : Int)) := by
    rw [hres]
    exact assignIds_map_id setList (m + 1) (compatiblePairs ms)
  refine ⟨generateAux setList ms ms (m + 1), ?_, hres, hmap, ?_, ?_⟩
  · simp [generate_combined_progressions, hm]
  · rw [hmap]
    refine List.Nodup.map ?_ (List.nodup_range _)
    intro a b hab
    have hab2 : m + 1 + (a : Int) = m + 1 + (b : Int) := hab
    omega
  · intro p hp q hq
    have hple := maxIdOpt_le ms m hm p hp
    have hq2 := List.mem_map_of_mem Progression.id hq
    rw [hmap] at hq2
    rcases List.mem_map.mp hq2 with ⟨k, _, hk⟩
    omega

/-- Witness for C7 on the two-element example catalog, whose only compatible
pair is `(progA, progB)` and whose max id is 2. -/
theorem C7_cross_product_and_ids_witness :
    maxIdOpt [progA, progB] = some 2 ∧
      (∃ res, generate_combined_progressions dedupSet [progA, progB] =
          Except.ok res ∧
        res = assignIds dedupSet (2 + 1) (compatiblePairs [progA, progB]) ∧
        res.map Progression.id =
          (List.range (compatiblePairs [progA, progB]).length).map
            (fun k : Nat => 2 + 1 + (k : Int)) ∧
        (res.map Progression.id).Nodup ∧
        ∀ p ∈ [progA, progB], ∀ q ∈ res, p.id < q.id) :=
  ⟨by decide, C7_cross_product_and_ids dedupSet [progA, progB] 2 (by decide)⟩

/-- `dedupSet` is a faithful model of Python's `list(set(...))`. -/
theorem dedupSet_isSetList (l : List String) : IsSetList l (dedupSet l) := by
  unfold IsSetList dedupSet
  refine ⟨List.nodup_dedup l, ?_, ?_⟩
  · intro s hs
    exact List.mem_dedup.mp hs
  · intro s hs
    exact List.mem_dedup.mpr hs

/-- `dedupSetRev` is a faithful model of Python's `list(set(...))`. -/
theorem dedupSetRev_isSetList (l : List String) : IsSetList l (dedupSetRev l) := by
  unfold IsSetList dedupSetRev
  refine ⟨List.nodup_reverse.mpr (List.nodup_dedup l), ?_, ?_⟩
  · intro s hs
    exact List.mem_dedup.mp (List.mem_reverse.mp hs)
  · intro s hs
    exact List.mem_reverse.mpr (List.mem_dedup.mpr hs)

/-- Two faithful set enumerations yield combinations differing at most in the
order of the style list. -/
theorem combine_eqUpToStyle (f g : List String → List String)
    (hf : ∀ l, IsSetList l (f l)) (hg : ∀ l, IsSetList l (g l))
    (a b : Progression) (n : Int) :
    EqUpToStyle (combine_progressions f a b n) (combine_progressions g a b n) := by
  obtain ⟨hf1, hf2, hf3⟩ := hf (a.style ++ b.style)
  obtain ⟨hg1, hg2, hg3⟩ := hg (a.style ++ b.style)
  unfold EqUpToStyle
  exact ⟨rfl, rfl, rfl, rfl, rfl, rfl, hf1, hg1,
    fun s hs => hg3 s (hf2 s hs), fun s hs => hf3 s (hg2 s hs)⟩

/-- `assignIds` under two faithful set enumerations produces pointwise
style-order-equivalent results. -/
theorem assignIds_forall₂ (f g : List String → List String)
    (hf : ∀ l, IsSetList l (f l)) (hg : ∀ l, IsSetList l (g l))
    (base : Int) (pairs : List (Progression × Progression)) :
    List.Forall₂ EqUpToStyle (assignIds f base pairs) (assignIds g base pairs) := by
  induction pairs generalizing base with
  | nil => exact List.Forall₂.nil
  | cons pq rest ih =>
    exact List.Forall₂.cons (combine_eqUpToStyle f g hf hg pq.1 pq.2 base) (ih _)

/-- Counterexample to claim C9 as stated: `dedupSet` and `dedupSetRev` are
both faithful models of `list(set(...))` — each is an enumeration order
Python is free to produce on some run — yet on the two-loop catalog the two
runs emit the combined progressions with different style sequences, so the
output sequences are not identical. -/
theorem C9_counterexample :
    IsSetList (progLoop.style ++ progLoop2.style)
        (dedupSet (progLoop.style ++ progLoop2.style)) ∧
      IsSetList (progLoop.style ++ progLoop2.style)
        (dedupSetRev (progLoop.style ++ progLoop2.style)) ∧
      ((generate_combined_progressions dedupSet
            [progLoop, progLoop2]).toOption.getD []).map Progression.style ≠
        ((generate_combined_progressions dedupSetRev
            [progLoop, progLoop2]).toOption.getD []).map Progression.style := by
  decide

/-- Claim C9 (amended): the computation is a pure single-pass function of the
catalog, deterministic in every field except the order in which the style
set is enumerated: any two runs (any two faithful `list(set(...))`
enumerations) produce outputs of the same length whose corresponding
records agree on id, technique, modes, root and chords, and whose style
lists hold exactly the same tag set, possibly in different orders. -/
theorem C9_deterministic_up_to_style (f g : List String → List String)
    (hf : ∀ l, IsSetList l (f l)) (hg : ∀ l, IsSetList l (g l))
    (ms : List Progression) (res1 res2 : List Progression)
    (h1 : generate_combined_progressions f ms = Except.ok res1)
    (h2 : generate_combined_progressions g ms = Except.ok res2) :
    List.Forall₂ EqUpToStyle res1 res2 := by
  cases hmo : maxIdOpt ms with
  | none =>
    rw [generate_combined_progressions, hmo] at h1
    exact absurd h1 (by simp)
  | some m =>
    rw [generate_combined_progressions, hmo] at h1 h2
    have e1 : generateAux f ms ms (m + 1) = res1 := by
      simpa using h1
    have e2 : generateAux g ms ms (m + 1) = res2 := by
      simpa using h2
    rw [← e1, ← e2, generateAux_eq, generateAux_eq]
    exact assignIds_forall₂ f g hf hg (m + 1) (pairsOf ms ms)

/-- Witness for C9 (amended) on the two-loop catalog with the two concrete
enumeration orders. -/
theorem C9_deterministic_up_to_style_witness :
    List.Forall₂ EqUpToStyle
      ((generate_combined_progressions dedupSet
          [progLoop, progLoop2]).toOption.getD [])
      ((generate_combined_progressions dedupSetRev
          [progLoop, progLoop2]).toOption.getD []) :=
  C9_deterministic_up_to_style dedupSet dedupSetRev dedupSet_isSetList
    dedupSetRev_isSetList [progLoop, progLoop2] _ _ rfl rfl
